import Mathlib

/-!
Shallow embedding of the SRP-DS DOA estimator
(`conventional algorithms/srp.py`) and verification of its specification.

Conventions of the embedding:
* configuration scalars (`d_inter`, `c`, `fs`, `f_low`, `f_high`, `resolution`)
  are rationals, so all configuration-level predicates are decidable;
* the signal path (STFT output, steering vectors, beamformed responses) lives
  in `ℝ`/`ℂ`, idealising the float arithmetic of the source;
* the windowed FFT itself (`torch.stft`) is an external library call; it is
  abstracted as a per-channel function parameter `kernel`.  Everything the
  repository's own code does around it (channel transposition, frequency
  masking, the angle sweep, aggregation) is translated directly;
* Python's `raise` is modelled with `Except String`.
-/

namespace SRP

/-- Configuration of the `SRP` module, mirroring `SRP.__init__` with its
default arguments. -/
structure SRPConfig where
  d_inter : ℚ
  c : ℚ := 343
  n_fft : ℕ := 512
  hop_length : ℕ := 256
  window_length : ℕ := 512
  fs : ℚ := 16000
  f_low : ℚ := 400
  f_high : ℚ := 1000
  resolution : ℚ := 1/2

/-- Model of `torch.linspace a b n` over `ℚ`: entry `i` is `a + i*(b-a)/(n-1)`
(for `n = 1` the division by zero yields `a`, matching torch's single
point `[a]`). -/
def linspaceQ (a b : ℚ) (n : ℕ) : List ℚ :=
  (List.range n).map (fun (i : ℕ) => a + (i : ℚ) * (b - a) / ((n : ℚ) - 1))

/-- Model of `torch.linspace a b n` over `ℝ`. -/
noncomputable def linspaceR (a b : ℝ) (n : ℕ) : List ℝ :=
  (List.range n).map (fun (i : ℕ) => a + (i : ℝ) * (b - a) / ((n : ℝ) - 1))

/-- Model of `SRP.spatial_nyquist_check`: raises iff `d_inter > c / (2 * f_high)`. -/
def spatial_nyquist_check (cfg : SRPConfig) : Except String Unit :=
  if cfg.c / (2 * cfg.f_high) < cfg.d_inter then
    Except.error "Spatial Nyquist theorem not satisfied!"
  else Except.ok ()

/-- The band predicate of `multi_channel_stft`:
`(f_analog >= self.f_low) & (f_analog < self.f_high)`. -/
def band_pass (cfg : SRPConfig) (f : ℚ) : Bool :=
  decide (cfg.f_low ≤ f) && decide (f < cfg.f_high)

/-- Raw frequency axis `f_analog = torch.linspace(0, fs / 2, n_fft // 2 + 1)` — the analog
frequency of every raw one-sided bin. -/
def f_analog_raw (cfg : SRPConfig) : List ℚ :=
  linspaceQ 0 (cfg.fs / 2) (cfg.n_fft / 2 + 1)

/-- The indices selected by the boolean mask `f_use_idx`. -/
def f_use_idx (cfg : SRPConfig) : List ℕ :=
  (List.range (cfg.n_fft / 2 + 1)).filter
    (fun k => band_pass cfg ((f_analog_raw cfg).getD k 0))

/-- Retained analog frequency axis `f_analog[f_use_idx]`. -/
def f_analog (cfg : SRPConfig) : List ℚ :=
  (f_use_idx cfg).map (fun k => (f_analog_raw cfg).getD k 0)

/-- Row selection `X[:, f_use_idx, :]` on one channel: keep the masked frequency rows. -/
def select_rows (idx : List ℕ) (ch : List (List ℂ)) : List (List ℂ) :=
  idx.map (fun i => ch.getD i [])

/-- Model of `x.transpose(1, 2)` on the `(T, C)` waveform: reorder to `(C, T)` by
index (tensors are rectangular, so pure index permutation). -/
def transpose_tc (x : List (List ℝ)) : List (List ℝ) :=
  (List.range ((x.getD 0 []).length)).map (fun ci => x.map (fun row => row.getD ci 0))

/-- Model of `SRP.multi_channel_stft`: split `(T, C)` into channels, run the
(external) per-channel STFT `kernel`, then apply the identical band mask to
the spectrum's frequency dimension and to the frequency axis. -/
def multi_channel_stft (cfg : SRPConfig) (kernel : List ℝ → List (List ℂ))
    (x : List (List ℝ)) : List (List (List ℂ)) × List ℚ :=
  (((transpose_tc x).map kernel).map (select_rows (f_use_idx cfg)), f_analog cfg)

/-- Angle count `int(180 / self.resolution + 1)` — number of candidate angles (Python
`int` truncates; for positive arguments that is the floor). -/
def num_theta (cfg : SRPConfig) : ℕ :=
  (Int.floor ((180 : ℚ) / cfg.resolution + 1)).toNat

/-- Angle grid `theta = torch.linspace(-90, 90, int(180 / resolution + 1))`. -/
noncomputable def theta_deg (cfg : SRPConfig) : List ℝ :=
  linspaceR (-90) 90 (num_theta cfg)

/-- Sine table `theta_sin = torch.sin(torch.deg2rad(theta))`. -/
noncomputable def theta_sin (cfg : SRPConfig) : List ℝ :=
  (theta_deg cfg).map (fun t => Real.sin (t * Real.pi / 180))

/-- Channel grid `torch.linspace(0, M - 1, M)` — the per-channel multiplier grid of the
steering phase. -/
noncomputable def chan_lin (M : ℕ) : List ℝ :=
  linspaceR 0 ((M : ℝ) - 1) M

/-- One steering-vector entry of `srp_ula`:
`exp(-1j * (2π * theta_sin[j] * d_inter * (f_analog[fi] * chan_lin[m]) / c))`. -/
noncomputable def steer_vec (cfg : SRPConfig) (fA : List ℚ) (M : ℕ)
    (j fi m : ℕ) : ℂ :=
  Complex.exp (-Complex.I *
    ((2 * Real.pi * (theta_sin cfg).getD j 0 * (cfg.d_inter : ℝ) *
      (((fA.getD fi 0 : ℚ) : ℝ) * (chan_lin M).getD m 0) / (cfg.c : ℝ) : ℝ) : ℂ))

/-- The delay-and-sum response at `(frequency fi, frame t)` for angle `j`:
`matmul(sig_stft[f,t,:], steer_vec[f,:])` (a plain inner product, no
conjugation), with `s` in `(F, T, C)` layout. -/
noncomputable def response (cfg : SRPConfig) (s : List (List (List ℂ)))
    (fA : List ℚ) (M : ℕ) (j fi t : ℕ) : ℂ :=
  ((List.range M).map
    (fun m => ((s.getD fi []).getD t []).getD m 0 * steer_vec cfg fA M j fi m)).sum

/-- Model of `torch.mean` over a real vector: sum divided by length. -/
noncomputable def mean_R (l : List ℝ) : ℝ := l.sum / (l.length : ℝ)

/-- Frame average `response_norm = torch.mean(torch.abs(response), dim=1)` for one
`(angle j, frequency fi)` cell. -/
noncomputable def response_norm (cfg : SRPConfig) (s : List (List (List ℂ)))
    (fA : List ℚ) (M T j fi : ℕ) : ℝ :=
  mean_R ((List.range T).map (fun t => Complex.abs (response cfg s fA M j fi t)))

/-- The `(F, angle)` power grid: `power_map[:, j] = response_norm ** 2`. -/
noncomputable def power_map (cfg : SRPConfig) (s : List (List (List ℂ)))
    (fA : List ℚ) (M T : ℕ) : List (List ℝ) :=
  (List.range fA.length).map (fun fi =>
    (List.range (num_theta cfg)).map (fun j => response_norm cfg s fA M T j fi ^ 2))

/-- Model of `torch.argmax` on a vector: index of the first maximal value
(documented torch semantics: ties resolved to the first occurrence). -/
def argmax_idx {α : Type} [LinearOrder α] : List α → ℕ
  | [] => 0
  | a :: rest =>
    let j := argmax_idx rest
    if rest.getD j a ≤ a then 0 else j + 1

/-- The tail of `srp_ula`: `power_map_mean = torch.mean(power_map, dim=0)`,
`doa_order = torch.argmax(power_map_mean)`, returning
`(doa_order * resolution - 90, power_map_mean)`. -/
noncomputable def aggregate (cfg : SRPConfig) (pm : List (List ℝ)) : ℝ × List ℝ :=
  let pc := (List.range (num_theta cfg)).map
    (fun j => mean_R (pm.map (fun row => row.getD j 0)))
  (((argmax_idx pc : ℕ) : ℝ) * (cfg.resolution : ℝ) - 90, pc)

/-- Layout change `rearrange(sig_stft, 'c f t -> f t c')`. -/
def rearrange_cft_ftc (X : List (List (List ℂ))) : List (List (List ℂ)) :=
  (List.range ((X.getD 0 []).length)).map (fun f =>
    (List.range (((X.getD 0 []).getD 0 []).length)).map (fun t =>
      X.map (fun ch => (ch.getD f []).getD t 0)))

/-- Model of `SRP.srp_ula`: the full angle sweep plus aggregation. -/
noncomputable def srp_ula (cfg : SRPConfig) (sig_stft : List (List (List ℂ)))
    (fA : List ℚ) : ℝ × List ℝ :=
  aggregate cfg
    (power_map cfg (rearrange_cft_ftc sig_stft) fA sig_stft.length
      (((sig_stft.getD 0 []).getD 0 []).length))

/-- Model of `SRP.forward`: spatial Nyquist gate, then transform, then sweep. -/
noncomputable def forward (cfg : SRPConfig) (kernel : List ℝ → List (List ℂ))
    (x : List (List ℝ)) : Except String (ℝ × List ℝ) :=
  (spatial_nyquist_check cfg).bind (fun _ =>
    Except.ok (srp_ula cfg (multi_channel_stft cfg kernel x).1
      (multi_channel_stft cfg kernel x).2))

/-! ### Indexing helper lemmas -/

theorem getD_map_of_lt {α β : Type} (f : α → β) (l : List α) (k : ℕ)
    (hk : k < l.length) (d : β) (d0 : α) :
    (l.map f).getD k d = f (l.getD k d0) := by
  rw [List.getD_eq_getElem _ _ (by simpa using hk), List.getElem_map,
    List.getD_eq_getElem _ _ hk]

theorem getD_default_irrel {α : Type} (l : List α) (k : ℕ) (hk : k < l.length)
    (d e : α) : l.getD k d = l.getD k e := by
  rw [List.getD_eq_getElem _ _ hk, List.getD_eq_getElem _ _ hk]

theorem range_getD_of_lt {n k : ℕ} (hk : k < n) : (List.range n).getD k 0 = k := by
  have hk2 : k < (List.range n).length := by simpa using hk
  rw [List.getD_eq_getElem _ _ hk2, List.getElem_range]

theorem linspaceR_getD (a b : ℝ) (n k : ℕ) (hk : k < n) :
    (linspaceR a b n).getD k 0 = a + (k : ℝ) * (b - a) / ((n : ℝ) - 1) := by
  have hk2 : k < (List.range n).length := by simpa using hk
  rw [linspaceR, getD_map_of_lt _ _ _ hk2 _ 0, range_getD_of_lt hk]

theorem linspaceQ_getD (a b : ℚ) (n k : ℕ) (hk : k < n) :
    (linspaceQ a b n).getD k 0 = a + (k : ℚ) * (b - a) / ((n : ℚ) - 1) := by
  have hk2 : k < (List.range n).length := by simpa using hk
  rw [linspaceQ, getD_map_of_lt _ _ _ hk2 _ 0, range_getD_of_lt hk]

theorem theta_deg_length (cfg : SRPConfig) : (theta_deg cfg).length = num_theta cfg := by
  rw [theta_deg, linspaceR, List.length_map, List.length_range]

theorem theta_sin_getD (cfg : SRPConfig) (j : ℕ) (hj : j < num_theta cfg) :
    (theta_sin cfg).getD j 0 =
      Real.sin ((theta_deg cfg).getD j 0 * Real.pi / 180) := by
  have hj2 : j < (theta_deg cfg).length := by rw [theta_deg_length]; exact hj
  rw [theta_sin, getD_map_of_lt _ _ _ hj2 _ 0]

theorem chan_lin_getD (M m : ℕ) (hm : m < M) : (chan_lin M).getD m 0 = (m : ℝ) := by
  rw [chan_lin, linspaceR_getD _ _ _ _ hm]
  rcases Nat.lt_or_ge M 2 with h2 | h2
  · have hM : M = 1 := by omega
    have hm0 : m = 0 := by omega
    subst hM
    subst hm0
    norm_num
  · have hne : (M : ℝ) - 1 ≠ 0 := by
      have h2r : (2 : ℝ) ≤ (M : ℝ) := by exact_mod_cast h2
      linarith
    field_simp

/-! ### argmax lemmas: the result is in range, is a maximum, and is the
first occurrence of the maximum. -/

theorem argmax_idx_nil {α : Type} [LinearOrder α] : argmax_idx ([] : List α) = 0 := rfl

theorem argmax_idx_cons {α : Type} [LinearOrder α] (a : α) (rest : List α) :
    argmax_idx (a :: rest) =
      if rest.getD (argmax_idx rest) a ≤ a then 0 else argmax_idx rest + 1 := rfl

theorem argmax_idx_lt_length {α : Type} [LinearOrder α] (l : List α) (h : l ≠ []) :
    argmax_idx l < l.length := by
  induction l with
  | nil => exact absurd rfl h
  | cons a rest ih =>
    rw [argmax_idx_cons]
    by_cases hc : rest.getD (argmax_idx rest) a ≤ a
    · rw [if_pos hc]
      simp
    · rw [if_neg hc]
      have hrest : rest ≠ [] := by
        rintro rfl
        simp at hc
      simpa using Nat.succ_lt_succ (ih hrest)

theorem getD_le_argmax {α : Type} [LinearOrder α] (l : List α) (d : α) (k : ℕ)
    (hk : k < l.length) : l.getD k d ≤ l.getD (argmax_idx l) d := by
  induction l generalizing k with
  | nil => simp at hk
  | cons a rest ih =>
    rw [argmax_idx_cons]
    by_cases hc : rest.getD (argmax_idx rest) a ≤ a
    · rw [if_pos hc, List.getD_cons_zero]
      match k with
      | 0 => simp
      | k + 1 =>
        rw [List.getD_cons_succ]
        have hkr : k < rest.length := by simpa using hk
        have hrest : rest ≠ [] := by
          rintro rfl
          simp at hkr
        have hlt := argmax_idx_lt_length rest hrest
        calc rest.getD k d ≤ rest.getD (argmax_idx rest) d := ih k hkr
          _ = rest.getD (argmax_idx rest) a := getD_default_irrel _ _ hlt _ _
          _ ≤ a := hc
    · rw [if_neg hc]
      have hrest : rest ≠ [] := by
        rintro rfl
        simp at hc
      have hlt := argmax_idx_lt_length rest hrest
      rw [List.getD_cons_succ]
      match k with
      | 0 =>
        rw [List.getD_cons_zero]
        calc a ≤ rest.getD (argmax_idx rest) a := le_of_lt (lt_of_not_le hc)
          _ = rest.getD (argmax_idx rest) d := getD_default_irrel _ _ hlt _ _
      | k + 1 =>
        rw [List.getD_cons_succ]
        exact ih k (by simpa using hk)

theorem getD_lt_of_lt_argmax {α : Type} [LinearOrder α] (l : List α) (d : α) (k : ℕ)
    (hk : k < argmax_idx l) : l.getD k d < l.getD (argmax_idx l) d := by
  induction l generalizing k with
  | nil =>
    rw [argmax_idx_nil] at hk
    exact absurd hk (Nat.not_lt_zero k)
  | cons a rest ih =>
    rw [argmax_idx_cons] at hk ⊢
    by_cases hc : rest.getD (argmax_idx rest) a ≤ a
    · rw [if_pos hc] at hk
      exact absurd hk (Nat.not_lt_zero k)
    · rw [if_neg hc] at hk ⊢
      have hrest : rest ≠ [] := by
        rintro rfl
        simp at hc
      have hlt := argmax_idx_lt_length rest hrest
      rw [List.getD_cons_succ]
      match k with
      | 0 =>
        rw [List.getD_cons_zero]
        calc a < rest.getD (argmax_idx rest) a := lt_of_not_le hc
          _ = rest.getD (argmax_idx rest) d := getD_default_irrel _ _ hlt _ _
      | k + 1 =>
        rw [List.getD_cons_succ]
        exact ih k (by simpa using hk)

/-! ### Mean lemmas -/

theorem mean_R_nonneg (l : List ℝ) (h : ∀ x ∈ l, 0 ≤ x) : 0 ≤ mean_R l :=
  div_nonneg (List.sum_nonneg h) (Nat.cast_nonneg _)

theorem mean_R_eq_zero (l : List ℝ) (h : ∀ x ∈ l, x = 0) : mean_R l = 0 := by
  rw [mean_R, List.sum_eq_zero h, zero_div]

/-! ### Reduction lemmas for `forward` -/

theorem forward_of_violation (cfg : SRPConfig) (kernel : List ℝ → List (List ℂ))
    (x : List (List ℝ)) (h : cfg.c / (2 * cfg.f_high) < cfg.d_inter) :
    forward cfg kernel x = Except.error "Spatial Nyquist theorem not satisfied!" := by
  simp only [forward, spatial_nyquist_check]
  rw [if_pos h]
  rfl

theorem forward_of_ok (cfg : SRPConfig) (kernel : List ℝ → List (List ℂ))
    (x : List (List ℝ)) (h : ¬ cfg.c / (2 * cfg.f_high) < cfg.d_inter) :
    forward cfg kernel x =
      Except.ok (srp_ula cfg (multi_channel_stft cfg kernel x).1
        (multi_channel_stft cfg kernel x).2) := by
  simp only [forward, spatial_nyquist_check]
  rw [if_neg h]
  rfl

/-! ### Claim theorems -/

/-- Claim C4: a DOA estimation run raises a configuration error iff
`d_inter > c / (2 * f_high)`; when it raises, it does so before any
transform or sweep work begins (the result is the fixed error value,
independent of the waveform and of the STFT kernel); and the check fails
at `d_inter = c/(2*f_high) + ε` while it succeeds at
`d_inter = c/(2*f_high) - ε`, for every `ε > 0`. -/
theorem c4_spatial_nyquist_gate (cfg : SRPConfig) (kernel : List ℝ → List (List ℂ))
    (x : List (List ℝ)) (ε : ℚ) (hε : 0 < ε) :
    ((∃ e, forward cfg kernel x = Except.error e) ↔
        cfg.c / (2 * cfg.f_high) < cfg.d_inter)
    ∧ (cfg.c / (2 * cfg.f_high) < cfg.d_inter →
        ∀ (kernel2 : List ℝ → List (List ℂ)) (x2 : List (List ℝ)),
          forward cfg kernel x = Except.error "Spatial Nyquist theorem not satisfied!"
          ∧ forward cfg kernel x = forward cfg kernel2 x2)
    ∧ (∃ e, spatial_nyquist_check
        { cfg with d_inter := cfg.c / (2 * cfg.f_high) + ε } = Except.error e)
    ∧ spatial_nyquist_check
        { cfg with d_inter := cfg.c / (2 * cfg.f_high) - ε } = Except.ok () := by
  refine ⟨?_, ?_, ?_, ?_⟩
  · constructor
    · intro ⟨e, he⟩
      by_contra hd
      rw [forward_of_ok cfg kernel x hd] at he
      exact Except.noConfusion he
    · intro hd
      exact ⟨_, forward_of_violation cfg kernel x hd⟩
  · intro hd kernel2 x2
    rw [forward_of_violation cfg kernel x hd, forward_of_violation cfg kernel2 x2 hd]
    exact ⟨rfl, rfl⟩
  · refine ⟨"Spatial Nyquist theorem not satisfied!", ?_⟩
    simp only [spatial_nyquist_check]
    rw [if_pos (lt_add_of_pos_right _ hε)]
  · simp only [spatial_nyquist_check]
    rw [if_neg (not_lt.mpr (sub_le_self _ (le_of_lt hε)))]

/-- Claim C5: the transform stage computes the analog frequency of the
`n_fft/2 + 1` one-sided bins as a uniform linspace from `0` to `fs/2`,
retains exactly the bins with `f_low ≤ f < f_high`, and applies the
identical index mask to the frequency axis and to every channel of the
spectrum, so bin `k` of the returned axis and bin `k` of the returned
spectrum come from the same raw bin `(f_use_idx cfg).getD k 0`. -/
theorem c5_band_selection_aligned (cfg : SRPConfig)
    (kernel : List ℝ → List (List ℂ)) (x : List (List ℝ)) (ch : List (List ℂ))
    (k : ℕ) (hk : k < (f_use_idx cfg).length) :
    f_analog_raw cfg = linspaceQ 0 (cfg.fs / 2) (cfg.n_fft / 2 + 1)
    ∧ (∀ i, i < cfg.n_fft / 2 + 1 →
        (f_analog_raw cfg).getD i 0 = (i : ℚ) * (cfg.fs / 2) / ((cfg.n_fft / 2 : ℕ) : ℚ))
    ∧ (∀ i, i ∈ f_use_idx cfg ↔
        (i < cfg.n_fft / 2 + 1 ∧ cfg.f_low ≤ (f_analog_raw cfg).getD i 0
          ∧ (f_analog_raw cfg).getD i 0 < cfg.f_high))
    ∧ (f_analog cfg).length = (f_use_idx cfg).length
    ∧ (f_analog cfg).getD k 0 = (f_analog_raw cfg).getD ((f_use_idx cfg).getD k 0) 0
    ∧ (select_rows (f_use_idx cfg) ch).getD k [] = ch.getD ((f_use_idx cfg).getD k 0) []
    ∧ (multi_channel_stft cfg kernel x).2 = f_analog cfg
    ∧ (multi_channel_stft cfg kernel x).1 =
        ((transpose_tc x).map kernel).map (select_rows (f_use_idx cfg)) := by
  refine ⟨rfl, ?_, ?_, ?_, ?_, ?_, rfl, rfl⟩
  · intro i hi
    rw [f_analog_raw, linspaceQ_getD _ _ _ _ hi]
    push_cast
    ring
  · intro i
    simp [f_use_idx, List.mem_filter, List.mem_range, band_pass, and_assoc]
  · rw [f_analog, List.length_map]
  · rw [f_analog, getD_map_of_lt _ _ _ hk _ 0]
  · rw [select_rows, getD_map_of_lt _ _ _ hk _ 0]

/-- The default configuration of the demo (`SRP(d_inter=0.02)`). -/
def cfgD : SRPConfig := { d_inter := 1/50 }

/-- A one-channel, one-frequency, two-frame spectrum in `(F, T, C)` layout
whose frame magnitudes are `0` and `2`. -/
def c1sig : List (List (List ℂ)) := [[[0], [2]]]

theorem num_theta_cfgD : num_theta cfgD = 361 := by
  have h : Int.floor ((180 : ℚ) / cfgD.resolution + 1) = 361 := by
    show Int.floor ((180 : ℚ) / (1/2 : ℚ) + 1) = 361
    norm_num
  rw [num_theta, h]
  rfl

theorem num_theta_cfgD_pos : 0 < num_theta cfgD := by
  rw [num_theta_cfgD]
  norm_num

theorem steer_vec_single_channel (cfg : SRPConfig) (fA : List ℚ) (j fi : ℕ) :
    steer_vec cfg fA 1 j fi 0 = 1 := by
  have h0 : (chan_lin 1).getD 0 0 = ((0 : ℕ) : ℝ) := chan_lin_getD 1 0 (by norm_num)
  simp only [steer_vec, h0]
  norm_num

/-- Claim C1: the power stored at grid position `(fi, j)` is the square of
the unweighted arithmetic mean over time frames of the magnitude of the
beamformed response (magnitude first, then average over `t`, then square).
It is not the average of squared magnitudes: at a concrete one-channel
spectrum with frame magnitudes `0` and `2` the stored power is `1` while
the mean of squared magnitudes is `2`. -/
theorem c1_magnitude_average_square (cfg : SRPConfig) (s : List (List (List ℂ)))
    (fA : List ℚ) (M T fi j : ℕ) (hfi : fi < fA.length) (hj : j < num_theta cfg) :
    ((power_map cfg s fA M T).getD fi []).getD j 0 =
      ((((List.range T).map
        (fun t => Complex.abs (response cfg s fA M j fi t))).sum) / (T : ℝ)) ^ 2
    ∧ ((power_map cfgD c1sig [500] 1 2).getD 0 []).getD 0 0 ≠
        (((List.range 2).map
          (fun t => Complex.abs (response cfgD c1sig [500] 1 0 0 t) ^ 2)).sum) / (2 : ℝ) := by
  constructor
  · have hfi2 : fi < (List.range fA.length).length := by simpa using hfi
    have hj2 : j < (List.range (num_theta cfg)).length := by simpa using hj
    rw [power_map, getD_map_of_lt _ _ _ hfi2 _ 0, range_getD_of_lt hfi,
      getD_map_of_lt _ _ _ hj2 _ 0, range_getD_of_lt hj, response_norm, mean_R,
      List.length_map, List.length_range]
  · have hr : ∀ t : ℕ, response cfgD c1sig [500] 1 0 0 t =
        ((c1sig.getD 0 []).getD t []).getD 0 0 := by
      intro t
      have hr1 : List.range 1 = [0] := rfl
      simp only [response, hr1, List.map_cons, List.map_nil, List.sum_cons,
        List.sum_nil, steer_vec_single_channel, mul_one, add_zero]
    have h0 : response cfgD c1sig [500] 1 0 0 0 = 0 := by
      rw [hr]
      simp [c1sig]
    have h1 : response cfgD c1sig [500] 1 0 0 1 = 2 := by
      rw [hr]
      simp [c1sig]
    have hpow : ((power_map cfgD c1sig [500] 1 2).getD 0 []).getD 0 0 =
        response_norm cfgD c1sig [500] 1 2 0 0 ^ 2 := by
      have hfa : (0 : ℕ) < ([(500 : ℚ)] : List ℚ).length := by norm_num
      have hfa2 : (0 : ℕ) < (List.range ([(500 : ℚ)] : List ℚ).length).length := by
        simp
      have hnt2 : (0 : ℕ) < (List.range (num_theta cfgD)).length := by
        simpa using num_theta_cfgD_pos
      rw [power_map, getD_map_of_lt _ _ _ hfa2 _ 0, getD_map_of_lt _ _ _ hnt2 _ 0,
        range_getD_of_lt hfa, range_getD_of_lt num_theta_cfgD_pos]
    rw [hpow, response_norm, mean_R]
    have hrange2 : List.range 2 = [0, 1] := by decide
    rw [hrange2]
    simp only [List.map_cons, List.map_nil, List.sum_cons, List.sum_nil,
      List.length_cons, List.length_nil, h0, h1]
    rw [map_zero]
    rw [Complex.abs_two]
    norm_num

/-- Claim C2: for every candidate angle index `j`, retained-axis frequency
`fA.getD fi 0` and channel index `m < M`, the steering-vector entry used by
the sweep equals `exp(-i * 2π * sin(θ_j) * d_inter * f * m / c)` with the
grid angle `θ_j` converted from degrees to radians before taking the sine
(the code's `torch.linspace(0, M-1, M)` channel grid evaluates to `m`). -/
theorem c2_steering_vector (cfg : SRPConfig) (fA : List ℚ) (M j fi m : ℕ)
    (hm : m < M) (hj : j < num_theta cfg) :
    steer_vec cfg fA M j fi m =
      Complex.exp (-Complex.I *
        ((2 * Real.pi * Real.sin ((theta_deg cfg).getD j 0 * Real.pi / 180) *
          (cfg.d_inter : ℝ) * ((fA.getD fi 0 : ℚ) : ℝ) * (m : ℝ) / (cfg.c : ℝ) : ℝ) : ℂ)) := by
  simp only [steer_vec]
  rw [theta_sin_getD cfg j hj, chan_lin_getD M m hm]
  have harg : 2 * Real.pi * Real.sin ((theta_deg cfg).getD j 0 * Real.pi / 180) *
      (cfg.d_inter : ℝ) * (((fA.getD fi 0 : ℚ) : ℝ) * (m : ℝ)) / (cfg.c : ℝ)
      = 2 * Real.pi * Real.sin ((theta_deg cfg).getD j 0 * Real.pi / 180) *
      (cfg.d_inter : ℝ) * ((fA.getD fi 0 : ℚ) : ℝ) * (m : ℝ) / (cfg.c : ℝ) := by
    ring
  rw [harg]

theorem aggregate_snd_length (cfg : SRPConfig) (pm : List (List ℝ)) :
    (aggregate cfg pm).2.length = num_theta cfg := by
  simp [aggregate]

theorem srp_ula_snd_length (cfg : SRPConfig) (s : List (List (List ℂ)))
    (fA : List ℚ) : (srp_ula cfg s fA).2.length = num_theta cfg :=
  aggregate_snd_length cfg _

/-- Claim C3: for every non-empty power grid, aggregation returns
`power_curve` = the unweighted arithmetic mean of the grid over the
frequency axis (its length is the angle-grid length), selects the first
occurrence of the maximum of `power_curve`, and returns
`index * resolution - 90` together with `power_curve`. -/
theorem c3_aggregation (cfg : SRPConfig) (pm : List (List ℝ))
    (hθ : 0 < num_theta cfg) (hpm : pm ≠ []) :
    (aggregate cfg pm).2.length = num_theta cfg
    ∧ (∀ j, j < num_theta cfg →
        (aggregate cfg pm).2.getD j 0 =
          (pm.map (fun row => row.getD j 0)).sum / (pm.length : ℝ))
    ∧ (aggregate cfg pm).1 =
        ((argmax_idx (aggregate cfg pm).2 : ℕ) : ℝ) * (cfg.resolution : ℝ) - 90
    ∧ argmax_idx (aggregate cfg pm).2 < (aggregate cfg pm).2.length
    ∧ (∀ i, i < (aggregate cfg pm).2.length →
        (aggregate cfg pm).2.getD i 0 ≤
          (aggregate cfg pm).2.getD (argmax_idx (aggregate cfg pm).2) 0)
    ∧ (∀ i, i < argmax_idx (aggregate cfg pm).2 →
        (aggregate cfg pm).2.getD i 0 <
          (aggregate cfg pm).2.getD (argmax_idx (aggregate cfg pm).2) 0) := by
  have hne : (aggregate cfg pm).2 ≠ [] := by
    have := aggregate_snd_length cfg pm
    intro he
    rw [he] at this
    simp at this
    omega
  refine ⟨aggregate_snd_length cfg pm, ?_, rfl, ?_, ?_, ?_⟩
  · intro j hj
    have hj2 : j < (List.range (num_theta cfg)).length := by simpa using hj
    show ((List.range (num_theta cfg)).map
      (fun j => mean_R (pm.map (fun row => row.getD j 0)))).getD j 0 = _
    rw [getD_map_of_lt _ _ _ hj2 _ 0, range_getD_of_lt hj, mean_R, List.length_map]
  · exact argmax_idx_lt_length _ hne
  · intro i hi
    exact getD_le_argmax _ 0 i hi
  · intro i hi
    exact getD_lt_of_lt_argmax _ 0 i hi

theorem power_map_entry_nonneg (cfg : SRPConfig) (s : List (List (List ℂ)))
    (fA : List ℚ) (M T : ℕ) (row : List ℝ) (hrow : row ∈ power_map cfg s fA M T)
    (j : ℕ) : 0 ≤ row.getD j 0 := by
  rw [power_map] at hrow
  rcases List.mem_map.mp hrow with ⟨fi, _, hfi⟩
  subst hfi
  by_cases hj : j < num_theta cfg
  · rw [getD_map_of_lt _ _ _ (by simpa using hj) _ 0]
    exact sq_nonneg _
  · rw [List.getD_eq_default]
    simp only [List.length_map, List.length_range]
    omega

/-- Claim C10: every entry of the returned `power_curve` is non-negative:
each grid cell is the square of a real mean of magnitudes, and each
per-angle value is a mean of those squares. -/
theorem c10_power_curve_nonneg (cfg : SRPConfig) (s : List (List (List ℂ)))
    (fA : List ℚ) (j : ℕ) (hj : j < (srp_ula cfg s fA).2.length) :
    0 ≤ (srp_ula cfg s fA).2.getD j 0 := by
  have hj2 : j < num_theta cfg := by rwa [srp_ula_snd_length] at hj
  show 0 ≤ ((List.range (num_theta cfg)).map
    (fun j => mean_R ((power_map cfg (rearrange_cft_ftc s) fA s.length
      (((s.getD 0 []).getD 0 []).length)).map (fun row => row.getD j 0)))).getD j 0
  rw [getD_map_of_lt _ _ _ (by simpa using hj2) _ 0, range_getD_of_lt hj2]
  refine mean_R_nonneg _ ?_
  intro v hv
  rcases List.mem_map.mp hv with ⟨row, hrow, hval⟩
  subst hval
  exact power_map_entry_nonneg cfg _ fA _ _ row hrow _

/-- A configuration whose band `[1000, 400)` retains no frequency bin. -/
def cfg6 : SRPConfig := { d_inter := 1/50, f_low := 1000, f_high := 400 }

/-- Claim C6 (refuting theorem): with `f_low = 1000 > f_high = 400` no bin
satisfies the band predicate, the retained frequency axis is empty, and yet
the invocation raises no configuration error: `forward` returns
`Except.ok`.  (In the source the subsequent `torch.mean` over the empty
frequency dimension silently produces a NaN power curve.) -/
theorem c6_empty_band_not_rejected :
    f_use_idx cfg6 = [] ∧ f_analog cfg6 = []
    ∧ ∃ v, forward cfg6 (fun _ => List.replicate 257 [0])
        (List.replicate 512 [1, 1]) = Except.ok v := by
  have hlow : cfg6.f_low = 1000 := rfl
  have hhigh : cfg6.f_high = 400 := rfl
  have hidx : f_use_idx cfg6 = [] := by
    rw [f_use_idx, List.filter_eq_nil_iff]
    intro k _
    simp only [band_pass, Bool.and_eq_true, decide_eq_true_eq, not_and, not_lt,
      hlow, hhigh]
    intro h1000
    linarith
  refine ⟨hidx, by rw [f_analog, hidx]; rfl, ?_⟩
  refine ⟨_, forward_of_ok cfg6 _ _ ?_⟩
  show ¬ (343 : ℚ) / (2 * 400) < 1/50
  norm_num

/-- A configuration whose resolution `0.7` does not evenly divide 180. -/
def cfg7 : SRPConfig := { d_inter := 1/50, resolution := 7/10 }

/-- Claim C7 (counterexample): `resolution = 0.7` does not evenly divide
180, yet no configuration error is raised anywhere in the run — `forward`
returns `Except.ok` — and the angle grid is silently truncated to
`int(180/0.7 + 1) = 258` points. -/
theorem c7_counterexample :
    (¬ ∃ n : ℕ, (n : ℚ) * cfg7.resolution = 180)
    ∧ num_theta cfg7 = 258
    ∧ ∃ v, forward cfg7 (fun _ => List.replicate 257 [0])
        (List.replicate 512 [1]) = Except.ok v := by
  refine ⟨?_, ?_, ?_⟩
  · rintro ⟨n, hn⟩
    have hres : cfg7.resolution = 7/10 := rfl
    rw [hres] at hn
    have h7 : ((7 * n : ℕ) : ℚ) = ((1800 : ℕ) : ℚ) := by push_cast; linarith
    have h7n : 7 * n = 1800 := Nat.cast_injective h7
    omega
  · have h : Int.floor ((180 : ℚ) / cfg7.resolution + 1) = 258 := by
      show Int.floor ((180 : ℚ) / (7/10 : ℚ) + 1) = 258
      norm_num
    rw [num_theta, h]
    rfl
  · refine ⟨_, forward_of_ok cfg7 _ _ ?_⟩
    show ¬ (343 : ℚ) / (2 * 1000) < 1/50
    norm_num

/-- Claim C7 (amended): construction performs no validation of
`resolution`; the angle grid always has `int(180/resolution + 1)` points,
which for `resolution > 0` is `⌊180/resolution⌋ + 1` (silent truncation),
and for every `resolution` that evenly divides 180 the returned
`power_curve` has length `180/resolution + 1`. -/
theorem c7_amended_grid_length (cfg : SRPConfig) (s : List (List (List ℂ)))
    (fA : List ℚ) (hres : 0 < cfg.resolution) :
    (srp_ula cfg s fA).2.length = num_theta cfg
    ∧ num_theta cfg = (Int.floor ((180 : ℚ) / cfg.resolution)).toNat + 1
    ∧ ∀ n : ℕ, (n : ℚ) * cfg.resolution = 180 → num_theta cfg = n + 1 := by
  have hq : (0 : ℚ) ≤ 180 / cfg.resolution := by positivity
  have hfl : (0 : ℤ) ≤ Int.floor ((180 : ℚ) / cfg.resolution) := Int.floor_nonneg.mpr hq
  have hkey : num_theta cfg = (Int.floor ((180 : ℚ) / cfg.resolution)).toNat + 1 := by
    rw [num_theta, Int.floor_add_one]
    omega
  refine ⟨srp_ula_snd_length cfg s fA, hkey, ?_⟩
  intro n hn
  have hne : cfg.resolution ≠ 0 := ne_of_gt hres
  have hdiv : (180 : ℚ) / cfg.resolution = (n : ℚ) := by
    field_simp
    linarith
  rw [hkey, hdiv, Int.floor_natCast]
  simp

/-! ### The batched transform call and its failure channel (claim C8) -/

/-- Model of `SRP.multi_channel_stft` with the transform's failure channel
made explicit: the source makes one batched `torch.stft` call on the whole
`(C, T)` channel stack (lines 51-56), and the library may raise on
degenerate shapes (e.g. a `RuntimeError` from `reflection_pad1d` when the
channel or sample count is zero), so the batched library call is
abstracted as a fallible function `bkernel` of the channel stack.  The
repository's own code around it is unchanged: channel split first, then
the single library call, then the identical band mask on the spectrum and
the frequency axis. -/
def multi_channel_stft_b (cfg : SRPConfig)
    (bkernel : List (List ℝ) → Except String (List (List (List ℂ))))
    (x : List (List ℝ)) : Except String (List (List (List ℂ)) × List ℚ) :=
  (bkernel (transpose_tc x)).map
    (fun X => (X.map (select_rows (f_use_idx cfg)), f_analog cfg))

/-- Model of `SRP.forward` over the fallible batched transform: spatial
Nyquist gate (which never inspects the waveform), then the transform, then
the sweep. -/
noncomputable def forward_b (cfg : SRPConfig)
    (bkernel : List (List ℝ) → Except String (List (List (List ℂ))))
    (x : List (List ℝ)) : Except String (ℝ × List ℝ) :=
  (spatial_nyquist_check cfg).bind (fun _ =>
    (multi_channel_stft_b cfg bkernel x).bind (fun p =>
      Except.ok (srp_ula cfg p.1 p.2)))

theorem forward_b_of_ok (cfg : SRPConfig)
    (bkernel : List (List ℝ) → Except String (List (List (List ℂ))))
    (x : List (List ℝ)) (h : ¬ cfg.c / (2 * cfg.f_high) < cfg.d_inter) :
    forward_b cfg bkernel x = (bkernel (transpose_tc x)).bind (fun X =>
      Except.ok (srp_ula cfg (X.map (select_rows (f_use_idx cfg))) (f_analog cfg))) := by
  simp only [forward_b, multi_channel_stft_b, spatial_nyquist_check]
  rw [if_neg h]
  cases bkernel (transpose_tc x) <;> rfl

/-- The zero-channel waveform: 512 sample rows, each with no channel entry. -/
def x8 : List (List ℝ) := List.replicate 512 []

/-- Claim C8 (counterexample): at the `(512, 0)` zero-channel waveform no
input-shape rejection happens before the transform stage: the channel
split is empty, and the run's outcome is decided entirely by the batched
library call itself.  With the kernel modelling the source's actual
behaviour at this input (`torch.stft` raises a `RuntimeError` from
`reflection_pad1d` on the zero-size channel dimension) the surfaced
failure is exactly that library error, raised inside the transform stage
— not an input-shape error raised before it — and with a kernel that
returns a spectrum the invocation is not rejected at all, so the
repository itself rejects nothing. -/
theorem c8_counterexample :
    transpose_tc x8 = []
    ∧ forward_b cfgD
        (fun _ => Except.error "RuntimeError: reflection_pad1d") x8 =
        Except.error "RuntimeError: reflection_pad1d"
    ∧ forward_b cfgD (fun _ => Except.ok []) x8 =
        Except.ok (srp_ula cfgD [] (f_analog cfgD)) := by
  have h : ¬ cfgD.c / (2 * cfgD.f_high) < cfgD.d_inter := by
    show ¬ (343 : ℚ) / (2 * 1000) < 1/50
    norm_num
  refine ⟨rfl, ?_, ?_⟩
  · rw [forward_b_of_ok cfgD _ _ h]
    rfl
  · rw [forward_b_of_ok cfgD _ _ h]
    rfl

/-- Claim C8 (amended): the code performs no input-shape validation of its
own.  The only gate before the transform is the spatial Nyquist check,
which never inspects the waveform; once it passes, the (possibly
degenerate) channel stack is handed unchecked to the batched transform,
whose outcome alone decides the run: a library error is surfaced as-is
from inside the transform stage — never a repository-generated
input-shape error before it — and a returned spectrum proceeds to the
sweep.  Channels of mismatched length are unrepresentable in the tensor
input. -/
theorem c8_amended_no_shape_validation (cfg : SRPConfig)
    (bkernel : List (List ℝ) → Except String (List (List (List ℂ))))
    (x : List (List ℝ)) (hny : ¬ cfg.c / (2 * cfg.f_high) < cfg.d_inter) :
    forward_b cfg bkernel x = (bkernel (transpose_tc x)).bind (fun X =>
        Except.ok (srp_ula cfg (X.map (select_rows (f_use_idx cfg))) (f_analog cfg)))
    ∧ (∀ e, bkernel (transpose_tc x) = Except.error e →
        forward_b cfg bkernel x = Except.error e)
    ∧ (∀ X, bkernel (transpose_tc x) = Except.ok X →
        forward_b cfg bkernel x =
          Except.ok (srp_ula cfg (X.map (select_rows (f_use_idx cfg))) (f_analog cfg))) := by
  refine ⟨forward_b_of_ok cfg bkernel x hny, ?_, ?_⟩
  · intro e he
    rw [forward_b_of_ok cfg bkernel x hny, he]
    rfl
  · intro X hX
    rw [forward_b_of_ok cfg bkernel x hny, hX]
    rfl

/-- Claim C9: the estimator is a pure function of its configuration,
(abstracted) STFT kernel and input waveform, so two invocations on
identical inputs return identical results — in particular identical
`power_curve` outputs. -/
theorem c9_deterministic (cfg : SRPConfig) (kernel : List ℝ → List (List ℂ))
    (x : List (List ℝ)) :
    forward cfg kernel x = forward cfg kernel x
    ∧ Except.map Prod.snd (forward cfg kernel x) =
        Except.map Prod.snd (forward cfg kernel x) :=
  ⟨rfl, rfl⟩

/-! ### Witnesses: each hypothesis-bearing claim theorem applied at a
concrete input. -/

theorem c1_witness :
    (0 : ℕ) < ([(500 : ℚ)] : List ℚ).length ∧ 0 < num_theta cfgD ∧
    (((power_map cfgD c1sig [500] 1 2).getD 0 []).getD 0 0 =
      ((((List.range 2).map
        (fun t => Complex.abs (response cfgD c1sig [500] 1 0 0 t))).sum) / ((2 : ℕ) : ℝ)) ^ 2
    ∧ ((power_map cfgD c1sig [500] 1 2).getD 0 []).getD 0 0 ≠
        (((List.range 2).map
          (fun t => Complex.abs (response cfgD c1sig [500] 1 0 0 t) ^ 2)).sum) / (2 : ℝ)) :=
  ⟨by norm_num, num_theta_cfgD_pos,
    c1_magnitude_average_square cfgD c1sig [500] 1 2 0 0 (by norm_num) num_theta_cfgD_pos⟩

theorem c2_witness :
    (1 : ℕ) < 2 ∧ 0 < num_theta cfgD ∧
    steer_vec cfgD [500] 2 0 0 1 =
      Complex.exp (-Complex.I *
        ((2 * Real.pi * Real.sin ((theta_deg cfgD).getD 0 0 * Real.pi / 180) *
          (cfgD.d_inter : ℝ) * ((([(500 : ℚ)] : List ℚ).getD 0 0 : ℚ) : ℝ) *
          ((1 : ℕ) : ℝ) / (cfgD.c : ℝ) : ℝ) : ℂ)) :=
  ⟨by norm_num, num_theta_cfgD_pos,
    c2_steering_vector cfgD [500] 2 0 0 1 (by norm_num) num_theta_cfgD_pos⟩

/-- A coarse configuration with three grid angles, for the aggregation
witness. -/
def cfg3 : SRPConfig := { d_inter := 1/50, resolution := 90 }

theorem num_theta_cfg3_pos : 0 < num_theta cfg3 := by
  have h : Int.floor ((180 : ℚ) / cfg3.resolution + 1) = 3 := by
    show Int.floor ((180 : ℚ) / (90 : ℚ) + 1) = 3
    norm_num
  rw [num_theta, h]
  decide

theorem c3_witness :
    0 < num_theta cfg3 ∧ ([[1, 3, 2]] : List (List ℝ)) ≠ [] ∧
    (aggregate cfg3 [[1, 3, 2]]).2.length = num_theta cfg3 :=
  ⟨num_theta_cfg3_pos, by simp,
    (c3_aggregation cfg3 [[1, 3, 2]] num_theta_cfg3_pos (by simp)).1⟩

theorem c4_witness :
    (0 : ℚ) < 1 ∧
    ((∃ e, forward cfgD (fun _ => []) [] = Except.error e) ↔
      cfgD.c / (2 * cfgD.f_high) < cfgD.d_inter) :=
  ⟨by norm_num, (c4_spatial_nyquist_gate cfgD (fun _ => []) [] 1 (by norm_num)).1⟩

theorem f_use_idx_cfgD_pos : 0 < (f_use_idx cfgD).length := by
  have h13 : 13 ∈ f_use_idx cfgD := by
    rw [f_use_idx, List.mem_filter]
    constructor
    · show 13 ∈ List.range (cfgD.n_fft / 2 + 1)
      rw [List.mem_range]
      decide
    · have hv : (f_analog_raw cfgD).getD 13 0 = 1625/4 := by
        rw [f_analog_raw, linspaceQ_getD _ _ _ 13 (by decide)]
        show (0 : ℚ) + 13 * (16000/2 - 0) / (((512/2 + 1 : ℕ) : ℚ) - 1) = 1625/4
        norm_num
      rw [hv]
      simp only [band_pass, Bool.and_eq_true, decide_eq_true_eq]
      show (400 : ℚ) ≤ 1625/4 ∧ (1625/4 : ℚ) < 1000
      norm_num
  exact List.length_pos.mpr (List.ne_nil_of_mem h13)

theorem c5_witness :
    0 < (f_use_idx cfgD).length ∧
    (f_analog cfgD).getD 0 0 = (f_analog_raw cfgD).getD ((f_use_idx cfgD).getD 0 0) 0 :=
  ⟨f_use_idx_cfgD_pos,
    (c5_band_selection_aligned cfgD (fun _ => []) [] [] 0 f_use_idx_cfgD_pos).2.2.2.2.1⟩

theorem c7_witness :
    (0 : ℚ) < cfgD.resolution ∧ (srp_ula cfgD [] []).2.length = num_theta cfgD := by
  have hres : (0 : ℚ) < cfgD.resolution := by
    show (0 : ℚ) < 1/2
    norm_num
  exact ⟨hres, (c7_amended_grid_length cfgD [] [] hres).1⟩

theorem c8_witness :
    ¬ cfgD.c / (2 * cfgD.f_high) < cfgD.d_inter
    ∧ ∀ e, (Except.error "boom" : Except String (List (List (List ℂ)))) =
        Except.error e →
        forward_b cfgD (fun _ => Except.error "boom") (List.replicate 600 []) =
          Except.error e := by
  have h : ¬ cfgD.c / (2 * cfgD.f_high) < cfgD.d_inter := by
    show ¬ (343 : ℚ) / (2 * 1000) < 1/50
    norm_num
  exact ⟨h, (c8_amended_no_shape_validation cfgD (fun _ => Except.error "boom")
    (List.replicate 600 []) h).2.1⟩

theorem c10_witness :
    0 < (srp_ula cfgD [] []).2.length ∧ 0 ≤ (srp_ula cfgD [] []).2.getD 0 0 := by
  have h : 0 < (srp_ula cfgD [] []).2.length := by
    rw [srp_ula_snd_length]
    exact num_theta_cfgD_pos
  exact ⟨h, c10_power_curve_nonneg cfgD [] [] 0 h⟩

end SRP
